import Mathlib

/-!
Verification of the frame-sequence analysis core of Frame Checker Pro
(`src/main.py`).

Filenames are modelled as lists of characters (`Filename := List Char`);
Python strings compare by code point, which coincides with the Mathlib
lexicographic order on `List Char` induced by `Char`'s order on `Char.val`.
The two regular expressions of the source,
`re.match("(.+?)(\\d+)(\\.\\w+)$", s)` (in `detect_prefix_and_ext`) and
`re.search("(\\d+)(\\.\\w+)$", f)` (the per-file fallback), are embedded as
executable functions with the same matching semantics, including the
backtracking order (lazy leading group, greedy digit and word runs) and
Python's rule that `$` also matches just before a single trailing newline.
Character classes `\\d` and `\\w` and `str.lower`/`int` whitespace are
modelled over ASCII (the source's own constants and every input considered
here are ASCII).
-/

namespace FrameChecker

abbrev Filename := List Char

/-- Shorthand turning a string literal into the character-list model of a
filename. -/
def fn (s : String) : Filename := s.data

/-- Python `\d` (ASCII range). -/
def isDigitChar (c : Char) : Bool := c.isDigit

/-- Python `\w` (ASCII range): letters, digits and underscore. -/
def isWordChar (c : Char) : Bool := c.isAlphanum || c = '_'

/-- Numeric value of a decimal digit character. -/
def digitVal (c : Char) : Nat := c.toNat - 48

/-- Value of a pure decimal-digit run, most significant digit first. -/
def digitsToNat (ds : List Char) : Nat :=
  ds.foldl (fun acc c => 10 * acc + digitVal c) 0

/-- Python `$` may match just before one trailing newline; stripping it
normalises the input for an end-anchored search. -/
def dropTrailingNl (f : Filename) : Filename :=
  match f.reverse with
  | '\n' :: r => r.reverse
  | _ => f

/-- Match `(\.\w+)$` against `w` viewed as the text after the digit run:
returns the word-character run after the dot when `w` consists of a
non-empty word run optionally followed by one final newline. -/
def matchWordsEnd (w : Filename) : Option Filename :=
  let ws := w.takeWhile isWordChar
  let r := w.drop ws.length
  if ws.isEmpty then none
  else if r = [] || r = ['\n'] then some ws else none

/-- Match `(\d+)(\.\w+)$` exactly at the start of `rest`: a non-empty
greedy digit run, a literal dot, then `matchWordsEnd`.  Returns the digit
group and the extension group (dot included). -/
def tailNumExt (rest : Filename) : Option (Filename × Filename) :=
  let ds := rest.takeWhile isDigitChar
  if ds.isEmpty then none
  else
    match rest.drop ds.length with
    | '.' :: w =>
      match matchWordsEnd w with
      | some ws => some (ds, '.' :: ws)
      | none => none
    | _ => none

/-- Lazy scan for `re.match("(.+?)(\d+)(\.\w+)$", s)`: grow the leading
group one character at a time (`.` never matches a newline) and take the
first position where the digit-and-extension tail matches.  Returns
`(group 1, group 2, group 3)`. -/
def pfxMatchGo (acc : Filename) : Filename → Option (Filename × Filename × Filename)
  | [] => none
  | c :: rest =>
    if c = '\n' then none
    else
      match tailNumExt rest with
      | some (ds, e) => some (acc ++ [c], ds, e)
      | none => pfxMatchGo (acc ++ [c]) rest

/-- `re.match("(.+?)(\d+)(\.\w+)$", s)` as a whole. -/
def pfxMatch (s : Filename) : Option (Filename × Filename × Filename) :=
  pfxMatchGo [] s

/-- `re.search("(\d+)(\.\w+)$", f)`: the leftmost end-anchored match, i.e.
the maximal digit run immediately before the last dot whose suffix is a
non-empty word-character run; returns group 1 (the digit run). -/
def searchNumExt (f : Filename) : Option Filename :=
  let g := dropTrailingNl f
  let rev := g.reverse
  let ws := rev.takeWhile isWordChar
  if ws.isEmpty then none
  else
    match rev.drop ws.length with
    | '.' :: rest =>
      let ds := rest.takeWhile isDigitChar
      if ds.isEmpty then none else some ds.reverse
    | _ => none

/-- `os.path.splitext(f)[1]` for a plain filename (no path separator):
the text from the last dot on, provided some character before that dot is
not itself a dot; otherwise the empty string. -/
def splitextExt (f : Filename) : Filename :=
  let revTail := f.reverse.takeWhile (fun c => c ≠ '.')
  if revTail.length = f.length then []
  else
    let pre := f.take (f.length - revTail.length - 1)
    if pre.any (fun c => c ≠ '.') then '.' :: revTail.reverse else []

/-- Python `str.lower` (ASCII range). -/
def lowerL (s : Filename) : Filename := s.map Char.toLower

/-- Python `str.lstrip(".")`. -/
def lstripDots (s : Filename) : Filename := s.dropWhile (fun c => c = '.')

/-- Whitespace stripped by Python `int` around a numeral (ASCII range). -/
def isPyWs (c : Char) : Bool :=
  c = ' ' || c = '\t' || c = '\n' || c = '\r' || c = '\x0b' || c = '\x0c'

/-- Strip leading and trailing whitespace. -/
def stripWs (s : Filename) : Filename :=
  ((s.dropWhile isPyWs).reverse.dropWhile isPyWs).reverse

/-- Continuation of a Python base-10 numeral after its first digit:
digits with single underscores allowed only between digits. -/
def pyDigitsRest : Nat → List Char → Option Nat
  | acc, [] => some acc
  | _, ['_'] => none
  | acc, '_' :: c :: rest =>
    if isDigitChar c then pyDigitsRest (10 * acc + digitVal c) rest else none
  | acc, c :: rest =>
    if isDigitChar c then pyDigitsRest (10 * acc + digitVal c) rest else none

/-- Unsigned part of a Python base-10 numeral: at least one digit,
underscores only between digits. -/
def pyUnsigned : List Char → Option Nat
  | [] => none
  | c :: rest => if isDigitChar c then pyDigitsRest (digitVal c) rest else none

/-- Python `int(s)` for base 10: optional surrounding whitespace, one
optional sign, then the underscore-separated digit grammar; `none` models
`ValueError`. -/
def pyIntOpt (s : Filename) : Option Int :=
  match stripWs s with
  | '+' :: rest => (pyUnsigned rest).map (fun n => (n : Int))
  | '-' :: rest => (pyUnsigned rest).map (fun n => -(n : Int))
  | rest => (pyUnsigned rest).map (fun n => (n : Int))

/-- `SUPPORTED_IMAGE_FORMATS` from the source configuration. -/
def SUPPORTED_IMAGE_FORMATS : List Filename :=
  [fn ".exr", fn ".png", fn ".jpg", fn ".jpeg", fn ".tif", fn ".tiff", fn ".bmp"]

/-- `detect_prefix_and_ext` (src/main.py lines 66-72): run the anchored
match on the first file of the list; on success return its leading group
and extension group, otherwise no shared leading text and the plain
`splitext` extension of the sample. -/
def detect_prefix_and_ext (files : List Filename) : Option Filename × Option Filename :=
  match files with
  | [] => (none, none)
  | sample :: _ =>
    match pfxMatch sample with
    | some (p, _, e) => (some p, some e)
    | none => (none, some (splitextExt sample))

/-- Result record of one folder check: the fields of the `slot` dictionary
written by `_check_folder` (frames, missing, detected leading text, detected
extension). -/
structure Slot where
  frames : List Int
  missing : List Int
  pfx : Option Filename
  ext : Option Filename
deriving Repr, DecidableEq

/-- Python truthiness of an optional string: not `None` and not empty. -/
def truthy : Option Filename → Bool
  | none => false
  | some s => !s.isEmpty

/-- Per-file index extraction (src/main.py lines 356-364): when both
pattern parts are truthy and the file starts with the leading text and ends
with the extension, parse the slice between them with Python `int`
semantics; otherwise fall back to the end-anchored digit-run search.  A
`none` result models the silently discarded file. -/
def extract_index (pfx ext : Option Filename) (f : Filename) : Option Int :=
  if truthy pfx && truthy ext &&
      (pfx.getD []).isPrefixOf f && (ext.getD []).isSuffixOf f then
    pyIntOpt ((f.drop (pfx.getD []).length).take
      (f.length - (pfx.getD []).length - (ext.getD []).length))
  else
    (searchNumExt f).map (fun ds => (digitsToNat ds : Int))

/-- The `nums` list accumulated by the extraction loop. -/
def extract_nums (files : List Filename) (pfx ext : Option Filename) : List Int :=
  files.filterMap (extract_index pfx ext)

/-- `sorted(set(nums))`: the sorted duplicate-free list of values. -/
def sortDedupInt (l : List Int) : List Int :=
  List.insertionSort (fun a b : Int => a ≤ b) l.dedup

/-- `range(a, b+1)` as a list of integers. -/
def intRange (a b : Int) : List Int :=
  (List.range (b + 1 - a).toNat).map (fun i : Nat => a + (i : Int))

/-- Final lines of `_check_folder` (368-371): sort and deduplicate the
extracted numbers, and subtract them from the full span between their
minimum and maximum. -/
def mk_report (nums : List Int) (pfx ext : Option Filename) : Slot :=
  let ns := sortDedupInt nums
  let s := ns.headD 0
  let e := ns.getLastD 0
  ⟨ns, (intRange s e).filter (fun n => decide (n ∉ ns)), pfx, ext⟩

/-- Sort the directory listing as `sorted(...)` does (lexicographically by
code point). -/
def sortFiles (l : List Filename) : List Filename :=
  List.insertionSort (fun a b : Filename => a ≤ b) l

/-- Listing sorted then filtered (src/main.py lines 340-347): with a
non-empty allow-list keep files whose `splitext` extension, dots stripped
and lowercased, is allowed; with an empty allow-list keep files whose
lowercased extension is among the supported image formats. -/
def filtered_files (listing : List Filename) (allowed : List Filename) : List Filename :=
  let all_files := sortFiles listing
  if allowed.isEmpty then
    all_files.filter (fun f => SUPPORTED_IMAGE_FORMATS.contains (lowerL (splitextExt f)))
  else
    all_files.filter (fun f => allowed.contains (lowerL (lstripDots (splitextExt f))))

/-- Pattern used by the extraction loop (src/main.py lines 350-353):
auto-detect from the filtered list, or no leading text plus the `splitext`
extension of its first file. -/
def detected_pattern (files : List Filename) (autoDetect : Bool) : Option Filename × Option Filename :=
  if autoDetect then detect_prefix_and_ext files
  else (none, some (splitextExt (files.headD [])))

/-- Body of `_check_folder` after the directory read (src/main.py lines
343-371), applied to the already filtered candidate list. -/
def run_check (files : List Filename) (autoDetect : Bool) : Slot :=
  if files = [] then ⟨[], [], none, none⟩
  else
    let pe := detected_pattern files autoDetect
    let nums := extract_nums files pe.1 pe.2
    if nums = [] then ⟨[], [], pe.1, pe.2⟩
    else mk_report nums pe.1 pe.2

/-- `_check_folder` minus the directory read: sort, filter, detect,
extract, and compute the gap report. -/
def check_folder_files (listing : List Filename) (allowed : List Filename)
    (autoDetect : Bool) : Slot :=
  run_check (filtered_files listing allowed) autoDetect

/-- `_check_folder` (src/main.py lines 337-371) with the `os.listdir` read
modelled as an optional listing: `none` stands for the exception swallowed
by the bare `except` at line 341, which yields the same empty slot. -/
def check_folder (listing : Option (List Filename)) (allowed : List Filename)
    (autoDetect : Bool) : Slot :=
  match listing with
  | none => ⟨[], [], none, none⟩
  | some l => check_folder_files l allowed autoDetect

/-- `start` of the rendered report: first frame, or 0 without frames
(src/main.py line 380). -/
def Slot.startIdx (s : Slot) : Int := s.frames.headD 0

/-- `end` of the rendered report: last frame, or 0 without frames
(src/main.py line 381). -/
def Slot.endIdx (s : Slot) : Int := s.frames.getLastD 0

/-- `total` of the rendered report (src/main.py line 382). -/
def Slot.total (s : Slot) : Int :=
  if s.frames = [] then 0 else s.endIdx - s.startIdx + 1

/-- Completeness ratio behind the rendered percentage (src/main.py line
383): number of frames over the full span, 0 when the span is empty. -/
def Slot.completeness (s : Slot) : Rat :=
  if s.total = 0 then 0 else (s.frames.length : Rat) / (s.total : Rat)

/-- Run accumulation of `summarize_missing_blocks`: `start` and `prev`
delimit the run being grown. -/
def summarizeRunsGo (start prev : Int) : List Int → List (Int × Int)
  | [] => [(start, prev)]
  | n :: rest =>
    if n = prev + 1 then summarizeRunsGo start n rest
    else (start, prev) :: summarizeRunsGo n n rest

/-- The contiguous runs underlying the blocks emitted by
`summarize_missing_blocks` (src/main.py lines 74-85), as `(start, prev)`
pairs. -/
def summarizeRuns : List Int → List (Int × Int)
  | [] => []
  | m :: rest => summarizeRunsGo m m rest

/-- Decimal digits of a natural number, as `str` renders it. -/
def natDigits (n : Nat) : List Char := Nat.toDigits 10 n

/-- `str` of an integer. -/
def intStr (n : Int) : Filename :=
  if n < 0 then '-' :: natDigits (-n).toNat else natDigits n.toNat

/-- One emitted block: `str(start)` for a singleton run, else
`f"{start}-{prev}"`. -/
def blockStr (p : Int × Int) : Filename :=
  if p.1 = p.2 then intStr p.1 else intStr p.1 ++ ['-'] ++ intStr p.2

/-- `summarize_missing_blocks` (src/main.py lines 74-85). -/
def summarize_missing_blocks (missing : List Int) : List Filename :=
  (summarizeRuns missing).map blockStr

/-- Token re-expansion used to state compression correctness: a run
`(a, b)` stands for the integers `a..b`. -/
def expandRun (p : Int × Int) : List Int := intRange p.1 p.2

/-- Set algebra of `_compare_two_selected` (src/main.py lines 654-655):
sorted difference, sorted reverse difference, sorted intersection of the
two frame lists. -/
def compare_frames (aF bF : List Int) : List Int × List Int × List Int :=
  (sortDedupInt (aF.filter (fun x => decide (x ∉ bF))),
   sortDedupInt (bF.filter (fun x => decide (x ∉ aF))),
   sortDedupInt (aF.filter (fun x => decide (x ∈ bF))))

/-! General lemmas about the embedded operations. -/

theorem headD_mem {α : Type _} (l : List α) (d : α) (h : l ≠ []) : l.headD d ∈ l := by
  cases l with
  | nil => exact absurd rfl h
  | cons a t => simp

theorem getLastD_mem {α : Type _} (l : List α) (d : α) (h : l ≠ []) : l.getLastD d ∈ l := by
  induction l generalizing d with
  | nil => exact absurd rfl h
  | cons a t ih =>
    cases t with
    | nil => simp
    | cons b t2 =>
      rw [List.getLastD_cons]
      exact List.mem_cons_of_mem a (ih a (by simp))

theorem sorted_headD_le {α : Type _} [Preorder α] {l : List α} (hs : l.Sorted (· ≤ ·))
    (d : α) {x : α} (hx : x ∈ l) : l.headD d ≤ x := by
  cases l with
  | nil => simp at hx
  | cons a t =>
    rcases List.mem_cons.mp hx with rfl | hxt
    · simp
    · simpa using (List.sorted_cons.mp hs).1 x hxt

theorem sorted_le_getLastD {α : Type _} [Preorder α] {l : List α} (hs : l.Sorted (· ≤ ·))
    (d : α) {x : α} (hx : x ∈ l) : x ≤ l.getLastD d := by
  induction l generalizing d x with
  | nil => simp at hx
  | cons a t ih =>
    rw [List.getLastD_cons]
    rcases List.mem_cons.mp hx with hxa | hxt
    · subst hxa
      cases t with
      | nil => simp
      | cons b t2 =>
        have hab : x ≤ b := (List.sorted_cons.mp hs).1 b (by simp)
        have hb : b ≤ (b :: t2).getLastD x :=
          ih (List.sorted_cons.mp hs).2 x (by simp)
        exact le_trans hab hb
    · exact ih (List.sorted_cons.mp hs).2 a hxt

theorem mem_intRange {a b x : Int} : x ∈ intRange a b ↔ a ≤ x ∧ x ≤ b := by
  simp only [intRange, List.mem_map, List.mem_range]
  constructor
  · rintro ⟨i, hi, rfl⟩
    omega
  · rintro ⟨h1, h2⟩
    exact ⟨(x - a).toNat, by omega, by omega⟩

theorem intRange_self (a : Int) : intRange a a = [a] := by
  have h : (a + 1 - a).toNat = 1 := by omega
  rw [intRange, h]
  simp [List.range_succ]

theorem intRange_succ_right {a b : Int} (h : a ≤ b + 1) :
    intRange a (b + 1) = intRange a b ++ [b + 1] := by
  have h1 : (b + 1 + 1 - a).toNat = (b + 1 - a).toNat + 1 := by omega
  simp only [intRange, h1, List.range_succ, List.map_append, List.map_cons, List.map_nil]
  have h2 : a + ((b + 1 - a).toNat : Int) = b + 1 := by omega
  rw [h2]

theorem mem_sortDedupInt {l : List Int} {x : Int} : x ∈ sortDedupInt l ↔ x ∈ l := by
  simp [sortDedupInt, List.mem_insertionSort, List.mem_dedup]

theorem sorted_sortDedupInt (l : List Int) : (sortDedupInt l).Sorted (· ≤ ·) :=
  List.sorted_insertionSort _ _

theorem nodup_sortDedupInt (l : List Int) : (sortDedupInt l).Nodup :=
  (List.perm_insertionSort _ _).symm.nodup l.nodup_dedup

theorem chain_lt_sortDedupInt (l : List Int) : (sortDedupInt l).Chain' (· < ·) := by
  rw [List.chain'_iff_pairwise]
  exact (sorted_sortDedupInt l).lt_of_le (nodup_sortDedupInt l)

theorem sortDedupInt_ne_nil {l : List Int} (h : l ≠ []) : sortDedupInt l ≠ [] := by
  obtain ⟨x, hx⟩ := List.exists_mem_of_ne_nil l h
  exact List.ne_nil_of_mem (mem_sortDedupInt.mpr hx)

/-- Branch analysis of `run_check`: its `frames` are always the sorted
deduplicated extracted numbers, and whenever some frame was found the
`missing` list is exactly the span between the first and last frame with
the frames themselves filtered out. -/
theorem run_check_spec (files : List Filename) (d : Bool) :
    (run_check files d).frames =
      sortDedupInt (extract_nums files (detected_pattern files d).1 (detected_pattern files d).2)
    ∧ ((run_check files d).frames ≠ [] →
        (run_check files d).missing =
          (intRange ((run_check files d).frames.headD 0)
              ((run_check files d).frames.getLastD 0)).filter
            (fun n => decide (n ∉ (run_check files d).frames)))
    ∧ ((run_check files d).frames = [] → (run_check files d).missing = []) := by
  by_cases hf : files = []
  · subst hf
    exact ⟨rfl, fun h => absurd rfl h, fun _ => rfl⟩
  · by_cases hn : extract_nums files (detected_pattern files d).1 (detected_pattern files d).2 = []
    · have hr : run_check files d =
          ⟨[], [], (detected_pattern files d).1, (detected_pattern files d).2⟩ := by
        simp only [run_check, if_neg hf, if_pos hn]
      rw [hr]
      exact ⟨by rw [hn]; rfl, fun h => absurd rfl h, fun _ => rfl⟩
    · have hr : run_check files d =
          mk_report (extract_nums files (detected_pattern files d).1 (detected_pattern files d).2)
            (detected_pattern files d).1 (detected_pattern files d).2 := by
        simp only [run_check, if_neg hf, if_neg hn]
      rw [hr]
      exact ⟨rfl, fun _ => rfl, fun h => absurd h (sortDedupInt_ne_nil hn)⟩

theorem summarizeRunsGo_ne_nil : ∀ (l : List Int) (s p : Int), summarizeRunsGo s p l ≠ []
  | [], _, _ => by simp [summarizeRunsGo]
  | n :: rest, s, p => by
    simp only [summarizeRunsGo]
    split
    · exact summarizeRunsGo_ne_nil rest s n
    · simp

/-- Invariant of the run accumulator: on a strictly increasing tail it
emits runs that re-expand to the interval grown so far followed by the
tail, every run is well formed, adjacent runs are separated by a gap of at
least two, and the first emitted run starts at `s`. -/
theorem summarizeRunsGo_spec (l : List Int) : ∀ (s p : Int), s ≤ p →
    (p :: l).Chain' (fun a b => a < b) →
    ((summarizeRunsGo s p l).map expandRun).flatten = intRange s p ++ l
    ∧ (∀ q ∈ summarizeRunsGo s p l, q.1 ≤ q.2)
    ∧ (summarizeRunsGo s p l).Chain' (fun q r => q.2 + 1 < r.1)
    ∧ (∀ q ∈ (summarizeRunsGo s p l).head?, q.1 = s) := by
  induction l with
  | nil =>
    intro s p hsp _
    refine ⟨by simp [summarizeRunsGo, expandRun], ?_, by simp [summarizeRunsGo], ?_⟩
    · intro q hq
      simp only [summarizeRunsGo, List.mem_singleton] at hq
      rw [hq]
      exact hsp
    · intro q hq
      simp only [summarizeRunsGo, List.head?] at hq
      simp only [Option.mem_def, Option.some_inj] at hq
      rw [← hq]
  | cons n rest ih =>
    intro s p hsp hc
    have hpn : p < n := (List.chain'_cons.mp hc).1
    have hc2 : (n :: rest).Chain' (fun a b => a < b) := (List.chain'_cons.mp hc).2
    by_cases h : n = p + 1
    · have hgo : summarizeRunsGo s p (n :: rest) = summarizeRunsGo s n rest := by
        simp only [summarizeRunsGo, if_pos h]
      obtain ⟨ih1, ih2, ih3, ih4⟩ := ih s n (by omega) hc2
      rw [hgo]
      refine ⟨?_, ih2, ih3, ih4⟩
      rw [ih1, h, intRange_succ_right (by omega)]
      simp
    · have hgap : p + 1 < n := by omega
      have hgo : summarizeRunsGo s p (n :: rest) = (s, p) :: summarizeRunsGo n n rest := by
        simp only [summarizeRunsGo, if_neg h]
      obtain ⟨ih1, ih2, ih3, ih4⟩ := ih n n le_rfl hc2
      rw [hgo]
      refine ⟨?_, ?_, ?_, ?_⟩
      · rw [List.map_cons, List.flatten_cons, ih1, intRange_self]
        simp [expandRun]
      · intro q hq
        rcases List.mem_cons.mp hq with hq1 | hq2
        · rw [hq1]
          exact hsp
        · exact ih2 q hq2
      · refine List.Chain'.cons' ih3 ?_
        intro y hy
        have := ih4 y hy
        simpa [this] using hgap
      · intro q hq
        simp only [List.head?, Option.mem_def, Option.some_inj] at hq
        rw [← hq]

/-- The run decomposition of a strictly increasing list re-expands to the
list itself, with well-formed, gap-separated runs. -/
theorem summarizeRuns_spec (l : List Int) (h : l.Chain' (fun a b => a < b)) :
    ((summarizeRuns l).map expandRun).flatten = l
    ∧ (∀ q ∈ summarizeRuns l, q.1 ≤ q.2)
    ∧ (summarizeRuns l).Chain' (fun q r => q.2 + 1 < r.1) := by
  cases l with
  | nil => exact ⟨rfl, by simp [summarizeRuns], by simp [summarizeRuns]⟩
  | cons m rest =>
    obtain ⟨h1, h2, h3, -⟩ := summarizeRunsGo_spec rest m m le_rfl h
    refine ⟨?_, h2, h3⟩
    show ((summarizeRunsGo m m rest).map expandRun).flatten = m :: rest
    rw [h1, intRange_self]
    rfl

/-- Sorting is a function of the multiset of filenames: permuted listings
sort identically. -/
theorem sortFiles_eq_of_perm {l1 l2 : List Filename} (h : l1.Perm l2) :
    sortFiles l1 = sortFiles l2 := by
  haveI : IsAntisymm Filename (fun a b : Filename => a ≤ b) := ⟨fun _ _ => le_antisymm⟩
  refine List.eq_of_perm_of_sorted ?_
    (List.sorted_insertionSort _ l1) (List.sorted_insertionSort _ l2)
  exact (List.perm_insertionSort _ l1).trans (h.trans (List.perm_insertionSort _ l2).symm)

theorem sorted_filtered_files (l a : List Filename) :
    (filtered_files l a).Sorted (fun x y => x ≤ y) := by
  unfold filtered_files
  split
  · exact List.Sorted.filter _ (List.sorted_insertionSort _ _)
  · exact List.Sorted.filter _ (List.sorted_insertionSort _ _)

/-- Removing an element on which the extractor yields nothing does not
change the extracted values. -/
theorem filterMap_erase_of_none {α β : Type _} [BEq α] [LawfulBEq α] (g : α → Option β)
    (x : α) (hg : g x = none) :
    ∀ xs : List α, xs.filterMap g = (xs.erase x).filterMap g := by
  intro xs
  induction xs with
  | nil => rfl
  | cons y ys ih =>
    by_cases hxy : y = x
    · subst hxy
      rw [List.erase_cons_head, List.filterMap_cons, hg]
    · rw [List.erase_cons_tail (by simpa using hxy), List.filterMap_cons,
        List.filterMap_cons, ih]

/-- Partition facts about a non-empty `run_check` report: frames and
missing are disjoint, cover the observed span exactly, the span ends are
attained frames, and missing stays inside the span. -/
theorem run_check_partition (files : List Filename) (d : Bool)
    (h : (run_check files d).frames ≠ []) :
    (∀ x : Int, (x ∈ (run_check files d).frames ∨ x ∈ (run_check files d).missing)
        ↔ ((run_check files d).startIdx ≤ x ∧ x ≤ (run_check files d).endIdx))
    ∧ (∀ x : Int, ¬(x ∈ (run_check files d).frames ∧ x ∈ (run_check files d).missing))
    ∧ (run_check files d).startIdx ∈ (run_check files d).frames
    ∧ (∀ x ∈ (run_check files d).frames, (run_check files d).startIdx ≤ x)
    ∧ (run_check files d).endIdx ∈ (run_check files d).frames
    ∧ (∀ x ∈ (run_check files d).frames, x ≤ (run_check files d).endIdx)
    ∧ (∀ x ∈ (run_check files d).missing,
        (run_check files d).startIdx ≤ x ∧ x ≤ (run_check files d).endIdx) := by
  obtain ⟨hf, hm, -⟩ := run_check_spec files d
  have hmiss := hm h
  have hsorted : (run_check files d).frames.Sorted (fun x y => x ≤ y) := by
    rw [hf]
    exact sorted_sortDedupInt _
  have hstart : (run_check files d).startIdx = (run_check files d).frames.headD 0 := rfl
  have hstop : (run_check files d).endIdx = (run_check files d).frames.getLastD 0 := rfl
  have hmem : ∀ x : Int, x ∈ (run_check files d).missing ↔
      (((run_check files d).frames.headD 0 ≤ x ∧ x ≤ (run_check files d).frames.getLastD 0)
        ∧ x ∉ (run_check files d).frames) := by
    intro x
    rw [hmiss]
    simp [List.mem_filter, mem_intRange]
  refine ⟨?_, ?_, ?_, ?_, ?_, ?_, ?_⟩
  · intro x
    rw [hstart, hstop]
    constructor
    · rintro (hx | hx)
      · exact ⟨sorted_headD_le hsorted 0 hx, sorted_le_getLastD hsorted 0 hx⟩
      · exact ((hmem x).mp hx).1
    · intro hx
      by_cases hin : x ∈ (run_check files d).frames
      · exact Or.inl hin
      · exact Or.inr ((hmem x).mpr ⟨hx, hin⟩)
  · rintro x ⟨hx1, hx2⟩
    exact ((hmem x).mp hx2).2 hx1
  · rw [hstart]
    exact headD_mem _ _ h
  · intro x hx
    rw [hstart]
    exact sorted_headD_le hsorted 0 hx
  · rw [hstop]
    exact getLastD_mem _ _ h
  · intro x hx
    rw [hstop]
    exact sorted_le_getLastD hsorted 0 hx
  · intro x hx
    rw [hstart, hstop]
    exact ((hmem x).mp hx).1

/-- A report with exactly one frame has a degenerate span, no missing
frames, and full completeness. -/
theorem run_check_single (files : List Filename) (d : Bool) (n : Int)
    (h : (run_check files d).frames = [n]) :
    (run_check files d).startIdx = (run_check files d).endIdx
    ∧ (run_check files d).missing = []
    ∧ (run_check files d).completeness = 1 := by
  obtain ⟨-, hm, -⟩ := run_check_spec files d
  have hne : (run_check files d).frames ≠ [] := by
    rw [h]
    exact List.cons_ne_nil n []
  have hmiss := hm hne
  refine ⟨?_, ?_, ?_⟩
  · simp [Slot.startIdx, Slot.endIdx, h]
  · rw [hmiss, h]
    simp [intRange_self]
  · simp only [Slot.completeness, Slot.total, Slot.startIdx, Slot.endIdx, h]
    norm_num

/-! Claim theorems. -/

/-- C1: for every filename list whose analysis produces a non-empty index
set, the report's indices and missing sets are disjoint, their union is
exactly the integer interval from `start = min(indices)` to
`end = max(indices)`, and missing contains no value outside that span. -/
theorem c1_partition_invariant (l a : List Filename) (d : Bool)
    (h : (check_folder_files l a d).frames ≠ []) :
    (∀ x : Int, (x ∈ (check_folder_files l a d).frames ∨ x ∈ (check_folder_files l a d).missing)
        ↔ ((check_folder_files l a d).startIdx ≤ x ∧ x ≤ (check_folder_files l a d).endIdx))
    ∧ (∀ x : Int, ¬(x ∈ (check_folder_files l a d).frames ∧ x ∈ (check_folder_files l a d).missing))
    ∧ (check_folder_files l a d).startIdx ∈ (check_folder_files l a d).frames
    ∧ (∀ x ∈ (check_folder_files l a d).frames, (check_folder_files l a d).startIdx ≤ x)
    ∧ (check_folder_files l a d).endIdx ∈ (check_folder_files l a d).frames
    ∧ (∀ x ∈ (check_folder_files l a d).frames, x ≤ (check_folder_files l a d).endIdx)
    ∧ (∀ x ∈ (check_folder_files l a d).missing,
        (check_folder_files l a d).startIdx ≤ x ∧ x ≤ (check_folder_files l a d).endIdx) :=
  run_check_partition (filtered_files l a) d h

/-- Witness for C1 at the three-file sample folder. -/
theorem c1_partition_invariant_witness :
    (check_folder_files [fn "shot_0001.png", fn "shot_0002.png", fn "shot_0004.png"] [] true).frames ≠ []
    ∧ ∀ x ∈ (check_folder_files [fn "shot_0001.png", fn "shot_0002.png", fn "shot_0004.png"] [] true).missing,
        (check_folder_files [fn "shot_0001.png", fn "shot_0002.png", fn "shot_0004.png"] [] true).startIdx ≤ x
        ∧ x ≤ (check_folder_files [fn "shot_0001.png", fn "shot_0002.png", fn "shot_0004.png"] [] true).endIdx :=
  ⟨by decide,
   (c1_partition_invariant [fn "shot_0001.png", fn "shot_0002.png", fn "shot_0004.png"] [] true
      (by decide)).2.2.2.2.2.2⟩

/-- C2 counterexample: on input `["42.png"]` the anchored match does
succeed (`.+?` captures `"4"`), so the detected leading text is not `None`
and the index list is not `[42]`, contradicting the claim. -/
theorem c2_counterexample :
    (check_folder_files [fn "42.png"] [] true).pfx ≠ none
    ∧ (check_folder_files [fn "42.png"] [] true).frames ≠ [42] := by
  refine ⟨?_, ?_⟩ <;> decide

/-- C2 amended: for `["42.png"]` the lazy leading group captures `"4"`,
the digit group is `"2"`, so analysis yields leading text `"4"`, extension
`".png"`, indices `[2]`, start = end = 2 and no missing frames. -/
theorem c2_amended_single_digit_split :
    check_folder_files [fn "42.png"] [] true = ⟨[2], [], some (fn "4"), some (fn ".png")⟩
    ∧ (check_folder_files [fn "42.png"] [] true).startIdx = 2
    ∧ (check_folder_files [fn "42.png"] [] true).endIdx = 2 := by
  refine ⟨?_, ?_, ?_⟩ <;> decide

/-- C3: the shot sequence sample yields pattern `shot_`/`.png`, indices
1,2,4 (leading zeros read as decimal), span 1..4, missing `[3]`,
compressed block `"3"`, and completeness 3/4. -/
theorem c3_shot_sequence :
    check_folder_files [fn "shot_0001.png", fn "shot_0002.png", fn "shot_0004.png"] [] true
      = ⟨[1, 2, 4], [3], some (fn "shot_"), some (fn ".png")⟩
    ∧ (check_folder_files [fn "shot_0001.png", fn "shot_0002.png", fn "shot_0004.png"] [] true).startIdx = 1
    ∧ (check_folder_files [fn "shot_0001.png", fn "shot_0002.png", fn "shot_0004.png"] [] true).endIdx = 4
    ∧ summarize_missing_blocks [3] = [fn "3"]
    ∧ pyIntOpt (fn "0007") = some 7
    ∧ (check_folder_files [fn "shot_0001.png", fn "shot_0002.png", fn "shot_0004.png"] [] true).completeness
        = 3 / 4 := by
  refine ⟨by decide, by decide, by decide, by decide, by decide, ?_⟩
  have h : check_folder_files [fn "shot_0001.png", fn "shot_0002.png", fn "shot_0004.png"] [] true
      = ⟨[1, 2, 4], [3], some (fn "shot_"), some (fn ".png")⟩ := by decide
  rw [h]
  have hne : ¬([1, 2, 4] : List Int) = [] := by decide
  norm_num [Slot.completeness, Slot.total, Slot.startIdx, Slot.endIdx, if_neg hne]

/-- C4: on every strictly increasing integer sequence the emitted runs
re-expand to exactly the input, runs are well formed and appear in
ascending order with no two adjacent runs mergeable (gap of at least two
between consecutive runs), empty input gives no runs, and the emitted
string tokens are precisely the rendered runs. -/
theorem c4_compression_roundtrip (l : List Int) (h : l.Chain' (fun a b => a < b)) :
    ((summarizeRuns l).map expandRun).flatten = l
    ∧ (∀ q ∈ summarizeRuns l, q.1 ≤ q.2)
    ∧ (summarizeRuns l).Chain' (fun q r => q.2 + 1 < r.1)
    ∧ summarizeRuns ([] : List Int) = []
    ∧ summarize_missing_blocks l = (summarizeRuns l).map blockStr := by
  obtain ⟨h1, h2, h3⟩ := summarizeRuns_spec l h
  exact ⟨h1, h2, h3, rfl, rfl⟩

/-- Witness for C4 at the sequence 3, 5, 6, 9. -/
theorem c4_compression_roundtrip_witness :
    ([3, 5, 6, 9] : List Int).Chain' (fun a b => a < b)
    ∧ ((summarizeRuns [3, 5, 6, 9]).map expandRun).flatten = [3, 5, 6, 9]
    ∧ summarize_missing_blocks [3, 5, 6, 9] = [fn "3", fn "5-6", fn "9"] :=
  ⟨by norm_num [List.chain'_cons],
   (c4_compression_roundtrip [3, 5, 6, 9] (by norm_num [List.chain'_cons])).1,
   by decide⟩

/-- C5: an empty (or fully filtered-out) listing yields the empty report
with no indices and completeness 0, and any analysis producing exactly one
index has a degenerate span, no missing frames and completeness 1. -/
theorem c5_boundary_behaviour (l a : List Filename) (d : Bool) (n : Int) :
    (filtered_files l a = [] →
      check_folder_files l a d = ⟨[], [], none, none⟩
      ∧ (check_folder_files l a d).completeness = 0)
    ∧ ((check_folder_files l a d).frames = [n] →
      (check_folder_files l a d).startIdx = (check_folder_files l a d).endIdx
      ∧ (check_folder_files l a d).missing = []
      ∧ (check_folder_files l a d).completeness = 1) := by
  constructor
  · intro hfil
    have he : check_folder_files l a d = ⟨[], [], none, none⟩ :=
      calc check_folder_files l a d = run_check (filtered_files l a) d := rfl
        _ = run_check [] d := by rw [hfil]
        _ = ⟨[], [], none, none⟩ := rfl
    refine ⟨he, ?_⟩
    rw [he]
    rfl
  · intro h1
    exact run_check_single (filtered_files l a) d n h1

/-- Witness for C5: a filtered-out listing and a single-index listing. -/
theorem c5_boundary_behaviour_witness :
    filtered_files [fn "noise.txt"] [fn "png"] = []
    ∧ check_folder_files [fn "noise.txt"] [fn "png"] true = ⟨[], [], none, none⟩
    ∧ (check_folder_files [fn "42.png"] [] true).frames = [2]
    ∧ (check_folder_files [fn "42.png"] [] true).missing = []
    ∧ (check_folder_files [fn "42.png"] [] true).completeness = 1 :=
  ⟨by decide,
   ((c5_boundary_behaviour [fn "noise.txt"] [fn "png"] true 0).1 (by decide)).1,
   by decide,
   ((c5_boundary_behaviour [fn "42.png"] [] true 2).2 (by decide)).2.1,
   ((c5_boundary_behaviour [fn "42.png"] [] true 2).2 (by decide)).2.2⟩

/-- C6: permuting the input listing never changes the report, because the
listing is sorted before filtering and detection; detection therefore
always sees the lexicographically least filtered candidate. -/
theorem c6_order_invariance (l1 l2 a : List Filename) (d : Bool) (h : l1.Perm l2) :
    check_folder_files l1 a d = check_folder_files l2 a d
    ∧ (∀ x ∈ filtered_files l1 a, (filtered_files l1 a).headD [] ≤ x) := by
  have hfil : filtered_files l1 a = filtered_files l2 a := by
    unfold filtered_files
    rw [sortFiles_eq_of_perm h]
  constructor
  · show run_check (filtered_files l1 a) d = run_check (filtered_files l2 a) d
    rw [hfil]
  · intro x hx
    exact sorted_headD_le (sorted_filtered_files l1 a) [] hx

/-- Witness for C6 on a two-element shuffle. -/
theorem c6_order_invariance_witness :
    ([fn "shot_0002.png", fn "shot_0001.png"].Perm [fn "shot_0001.png", fn "shot_0002.png"])
    ∧ check_folder_files [fn "shot_0002.png", fn "shot_0001.png"] [] true
      = check_folder_files [fn "shot_0001.png", fn "shot_0002.png"] [] true :=
  ⟨by decide,
   (c6_order_invariance [fn "shot_0002.png", fn "shot_0001.png"]
      [fn "shot_0001.png", fn "shot_0002.png"] [] true (by decide)).1⟩

/-- C7: the index list is a per-file `filterMap` over the filtered
candidates, so a filename on which extraction fails contributes nothing
and removing it leaves the extracted numbers of the remaining files
unchanged. -/
theorem c7_unparsable_discarded (l a : List Filename) (d : Bool) (f : Filename)
    (hmem : f ∈ filtered_files l a)
    (hfail : extract_index (detected_pattern (filtered_files l a) d).1
      (detected_pattern (filtered_files l a) d).2 f = none) :
    (check_folder_files l a d).frames
      = sortDedupInt (extract_nums (filtered_files l a)
          (detected_pattern (filtered_files l a) d).1 (detected_pattern (filtered_files l a) d).2)
    ∧ extract_nums (filtered_files l a) (detected_pattern (filtered_files l a) d).1
        (detected_pattern (filtered_files l a) d).2
      = extract_nums ((filtered_files l a).erase f) (detected_pattern (filtered_files l a) d).1
          (detected_pattern (filtered_files l a) d).2 := by
  refine ⟨(run_check_spec (filtered_files l a) d).1, ?_⟩
  unfold extract_nums
  exact filterMap_erase_of_none _ f hfail _

/-- Witness for C7: `frame.png` has no digits before its extension, fails
extraction, and does not disturb the index parsed from `a1.png`. -/
theorem c7_unparsable_discarded_witness :
    fn "frame.png" ∈ filtered_files [fn "frame.png", fn "a1.png"] []
    ∧ extract_index (detected_pattern (filtered_files [fn "frame.png", fn "a1.png"] []) true).1
        (detected_pattern (filtered_files [fn "frame.png", fn "a1.png"] []) true).2 (fn "frame.png") = none
    ∧ (check_folder_files [fn "frame.png", fn "a1.png"] [] true).frames
      = sortDedupInt (extract_nums (filtered_files [fn "frame.png", fn "a1.png"] [])
          (detected_pattern (filtered_files [fn "frame.png", fn "a1.png"] []) true).1
          (detected_pattern (filtered_files [fn "frame.png", fn "a1.png"] []) true).2) :=
  ⟨by decide, by decide,
   (c7_unparsable_discarded [fn "frame.png", fn "a1.png"] [] true (fn "frame.png")
      (by decide) (by decide)).1⟩

/-- C8: folder-pair comparison returns the sorted difference, reverse
difference and intersection of the two index sets, and on
A = 1,2,3,5 and B = 2,3,4 gives only_a = [1,5], only_b = [4],
common = [2,3]. -/
theorem c8_compare_folders (A B : List Int) :
    (∀ x : Int, x ∈ (compare_frames A B).1 ↔ (x ∈ A ∧ x ∉ B))
    ∧ (∀ x : Int, x ∈ (compare_frames A B).2.1 ↔ (x ∈ B ∧ x ∉ A))
    ∧ (∀ x : Int, x ∈ (compare_frames A B).2.2 ↔ (x ∈ A ∧ x ∈ B))
    ∧ (compare_frames A B).1.Chain' (fun x y => x < y)
    ∧ (compare_frames A B).2.1.Chain' (fun x y => x < y)
    ∧ (compare_frames A B).2.2.Chain' (fun x y => x < y)
    ∧ compare_frames [1, 2, 3, 5] [2, 3, 4] = ([1, 5], [4], [2, 3]) := by
  refine ⟨?_, ?_, ?_, chain_lt_sortDedupInt _, chain_lt_sortDedupInt _,
    chain_lt_sortDedupInt _, by decide⟩
  · intro x
    simp [compare_frames, mem_sortDedupInt, List.mem_filter]
  · intro x
    simp [compare_frames, mem_sortDedupInt, List.mem_filter]
  · intro x
    simp [compare_frames, mem_sortDedupInt, List.mem_filter]

set_option maxRecDepth 40000 in
/-- C9: the slice between detected leading text and extension is parsed
with full Python `int` semantics, so `"1_000"` parses to 1000, the listing
`a_1.png`, `a_1_000.png` yields indices 1 and 1000 and 998 missing frames,
even though the second filename's digit run before its extension is
`"000"`. -/
theorem c9_python_int_underscores :
    pyIntOpt (fn "1_000") = some 1000
    ∧ searchNumExt (fn "a_1_000.png") = some (fn "000")
    ∧ check_folder_files [fn "a_1.png", fn "a_1_000.png"] [] true
        = ⟨[1, 1000], intRange 2 999, some (fn "a_"), some (fn ".png")⟩
    ∧ (check_folder_files [fn "a_1.png", fn "a_1_000.png"] [] true).missing.length = 998 := by
  refine ⟨by decide, by decide, by decide, by decide⟩

/-- C10: a failed directory read is swallowed and reported exactly like an
empty folder: the same empty slot, indistinguishable by the caller. -/
theorem c10_unreadable_listing (a : List Filename) (d : Bool) :
    check_folder none a d = ⟨[], [], none, none⟩
    ∧ check_folder (some []) a d = check_folder none a d := by
  refine ⟨rfl, ?_⟩
  have h : filtered_files [] a = [] := by
    unfold filtered_files sortFiles
    split <;> rfl
  calc check_folder (some []) a d = run_check (filtered_files [] a) d := rfl
    _ = run_check [] d := by rw [h]
    _ = check_folder none a d := rfl

end FrameChecker
